import Mathlib

/-!
Shallow embedding of the osmpbf crate (src/blob.rs, src/block.rs, src/elements.rs,
src/error.rs) for checking the natural-language specification against the code.

Rust machine integers are modelled as `Nat`/`Int`; byte strings as `List Nat`
(each entry a byte value); fallible operations return `Except`.  The external
collaborators the crate only calls (the generic protobuf message parser and the
zlib inflate filter) are passed in as function parameters, exactly at the call
sites where the crate invokes them.
-/

namespace Osmpbf

/-! ## Error model (src/error.rs) -/

/-- `BlobError` from src/error.rs: errors produced while decoding blobs. -/
inductive BlobError : Type
  /-- Header size could not be decoded to a u32. -/
  | InvalidHeaderSize : BlobError
  /-- Blob header is bigger than `MAX_BLOB_HEADER_SIZE`; carries the size. -/
  | HeaderTooBig (size : Nat) : BlobError
  /-- Blob content is bigger than `MAX_BLOB_MESSAGE_SIZE`; carries the size. -/
  | MessageTooBig (size : Nat) : BlobError
  /-- The blob has neither a `raw` nor a `zlib_data` field. -/
  | Empty : BlobError
deriving DecidableEq, Repr

/-- `ErrorKind` from src/error.rs.  The `Protobuf` variant keeps the static
location string the crate attaches (`"blob header"`, `"blob content"`, ...);
the wrapped foreign `ProtobufError` / `io::Error` payloads are dropped since
the crate never inspects them.  `StringtableUtf8` carries the position up to
which the bytes were valid (the content of Rust's `Utf8Error`) and the index. -/
inductive ErrorKind : Type
  | Io : ErrorKind
  | Protobuf (location : String) : ErrorKind
  | StringtableUtf8 (validUpTo : Nat) (index : Nat) : ErrorKind
  | StringtableIndexOutOfBounds (index : Nat) : ErrorKind
  | Blob (e : BlobError) : ErrorKind
deriving DecidableEq, Repr

/-! ## Wire data model (proto/osmformat, the fields the claims touch) -/

/-- The element type of a relation member (`Relation_MemberType` /
`RelMemberType`). -/
inductive RelMemberType : Type
  | node : RelMemberType
  | way : RelMemberType
  | relation : RelMemberType
deriving DecidableEq, Repr

/-- `osmformat::Node`: id plus the parallel key/value stringtable-index
arrays (metadata and coordinate fields not needed by any claim are omitted). -/
structure OsmNode : Type where
  id : Int
  keys : List Nat
  vals : List Nat
deriving DecidableEq, Repr

/-- `osmformat::Way`: id, parallel key/value index arrays and the
delta-coded `refs` array. -/
structure OsmWay : Type where
  id : Int
  keys : List Nat
  vals : List Nat
  refs : List Int
deriving DecidableEq, Repr

/-- `osmformat::Relation`: id, key/value index arrays and the three parallel
member arrays: role stringtable indices, delta-coded member ids, member
types. -/
structure OsmRelation : Type where
  id : Int
  keys : List Nat
  vals : List Nat
  roles_sid : List Int
  memids : List Int
  types : List RelMemberType
deriving DecidableEq, Repr

/-- Modelled from the spec: the columnar dense-node record decoded by
`DenseNodeIter` (src/dense.rs is not under src/).  The claims only need the
sequence of dense nodes a group yields, in stored order, so a dense node is
kept abstract as its id. -/
structure DenseNode : Type where
  id : Int
deriving DecidableEq, Repr

/-- `osmformat::PrimitiveGroup`: the four sub-lists of a group.  `dense` is
the list of dense nodes the group's columnar data decodes to, in stored
order. -/
structure PrimitiveGroup : Type where
  dense : List DenseNode
  nodes : List OsmNode
  ways : List OsmWay
  relations : List OsmRelation
deriving DecidableEq, Repr

/-- `osmformat::PrimitiveBlock` as wrapped by `block::PrimitiveBlock`: the
shared stringtable (a list of byte strings) and the ordered group list
(granularity/offset fields not needed by any claim are omitted). -/
structure PrimitiveBlock : Type where
  stringtable : List (List Nat)
  primitivegroup : List PrimitiveGroup
deriving DecidableEq, Repr

/-! ## UTF-8 validation (std::str::from_utf8, called by str_from_stringtable)

`utf8Check l` returns `none` when `l` is valid UTF-8 and `some i` when the
first invalid or incomplete sequence starts at byte position `i` (Rust's
`Utf8Error::valid_up_to`). -/

/-- A UTF-8 continuation byte: `0x80 ..= 0xBF`. -/
def utf8Cont (b : Nat) : Bool :=
  decide (0x80 ≤ b) && decide (b ≤ 0xBF)

/-- Allowed second byte of a three-byte sequence led by `b`. -/
def utf8Second3 (b b2 : Nat) : Bool :=
  if b = 0xE0 then decide (0xA0 ≤ b2) && decide (b2 ≤ 0xBF)
  else if b = 0xED then decide (0x80 ≤ b2) && decide (b2 ≤ 0x9F)
  else utf8Cont b2

/-- Allowed second byte of a four-byte sequence led by `b`. -/
def utf8Second4 (b b2 : Nat) : Bool :=
  if b = 0xF0 then decide (0x90 ≤ b2) && decide (b2 ≤ 0xBF)
  else if b = 0xF4 then decide (0x80 ≤ b2) && decide (b2 ≤ 0x8F)
  else utf8Cont b2

/-- Walk the byte list validating UTF-8 sequences; `i` is the byte position
of the head of the list in the original string. -/
def utf8CheckFrom : List Nat → Nat → Option Nat
  | [], _ => none
  | b :: rest, i =>
    if b ≤ 0x7F then utf8CheckFrom rest (i + 1)
    else if 0xC2 ≤ b ∧ b ≤ 0xDF then
      match rest with
      | b2 :: rest2 => if utf8Cont b2 then utf8CheckFrom rest2 (i + 2) else some i
      | [] => some i
    else if 0xE0 ≤ b ∧ b ≤ 0xEF then
      match rest with
      | b2 :: b3 :: rest3 =>
        if utf8Second3 b b2 && utf8Cont b3 then utf8CheckFrom rest3 (i + 3) else some i
      | _ => some i
    else if 0xF0 ≤ b ∧ b ≤ 0xF4 then
      match rest with
      | b2 :: b3 :: b4 :: rest4 =>
        if utf8Second4 b b2 && utf8Cont b3 && utf8Cont b4 then utf8CheckFrom rest4 (i + 4)
        else some i
      | _ => some i
    else some i

/-- `std::str::from_utf8` validity check: `none` = valid, `some i` = first
error with `valid_up_to = i`. -/
def utf8Check (l : List Nat) : Option Nat :=
  utf8CheckFrom l 0

/-! ## Stringtable resolution (src/block.rs, str_from_stringtable) -/

/-- `str_from_stringtable` from src/block.rs.  On success it returns the
(validated) byte string at `index`; Rust returns the same bytes viewed as
`&str`. -/
def str_from_stringtable (block : PrimitiveBlock) (index : Nat) :
    Except ErrorKind (List Nat) :=
  match block.stringtable.get? index with
  | some vec =>
    match utf8Check vec with
    | none => Except.ok vec
    | some p => Except.error (ErrorKind.StringtableUtf8 p index)
  | none => Except.error (ErrorKind.StringtableIndexOutOfBounds index)

/-! ## Delta decoding (src/elements.rs) -/

/-- The unfolding of `WayRefIter::next`: the iterator holds the remaining
delta slice and the running absolute value `current`; each step adds the next
delta to `current` and yields it. -/
def wayRefsFrom (current : Int) : List Int → List Int
  | [] => []
  | d :: ds => (current + d) :: wayRefsFrom (current + d) ds

/-- `Way::refs`: the absolute node ids of a way, running sum seeded at 0. -/
def wayRefs (w : OsmWay) : List Int :=
  wayRefsFrom 0 w.refs

/-- `RelMember` from src/elements.rs (the block back-reference is dropped;
`role` resolution goes through `str_from_stringtable` with `role_sid`). -/
structure RelMember : Type where
  role_sid : Int
  member_id : Int
  member_type : RelMemberType
deriving DecidableEq, Repr

/-- The unfolding of `RelMemberIter::next`: the three parallel slices are
consumed in lock-step; iteration stops as soon as any one is exhausted; the
member id is the running sum of the deltas seeded at `current`. -/
def relMembersFrom (current : Int) :
    List Int → List Int → List RelMemberType → List RelMember
  | r :: rs, d :: ds, t :: ts =>
    { role_sid := r, member_id := current + d, member_type := t } ::
      relMembersFrom (current + d) rs ds ts
  | _, _, _ => []

/-- `Relation::members`: the member list of a relation. -/
def relMembers (rel : OsmRelation) : List RelMember :=
  relMembersFrom 0 rel.roles_sid rel.memids rel.types

/-! ## Tag decoding (src/elements.rs, TagIter) -/

/-- The unfolding of `TagIter::next`: key and value index slices are consumed
in lock-step; each pair is resolved through the stringtable; the sequence
stops at the first pair in which either resolution fails. -/
def tagsFrom (block : PrimitiveBlock) : List Nat → List Nat →
    List (List Nat × List Nat)
  | k :: ks, v :: vs =>
    match str_from_stringtable block k, str_from_stringtable block v with
    | Except.ok sk, Except.ok sv => (sk, sv) :: tagsFrom block ks vs
    | _, _ => []
  | _, _ => []

/-- `TagIter::size_hint`: it forwards `self.key_indices.size_hint()`, the
slice iterator hint `(len, Some len)` of the key-index array alone.
`ExactSizeIterator::len` is the first component. -/
def tagIterSizeHint (keys vals : List Nat) : Nat × Option Nat :=
  (keys.length, some keys.length)

/-! ## Blob framing (src/blob.rs) -/

/-- Maximum allowed `BlobHeader` size in bytes (src/blob.rs line 22). -/
def MAX_BLOB_HEADER_SIZE : Nat := 64 * 1024

/-- Maximum allowed uncompressed `Blob` content size in bytes
(src/blob.rs line 25). -/
def MAX_BLOB_MESSAGE_SIZE : Nat := 32 * 1024 * 1024

/-- The kind of a `std::io` error, as far as `BlobReader::next` inspects it:
it only distinguishes `UnexpectedEof` from everything else. -/
inductive IOErrorKind : Type
  | unexpectedEof : IOErrorKind
  | otherKind : IOErrorKind
deriving DecidableEq, Repr

/-- Model of the underlying byte source (`R: Read + Seek`): the whole
backing byte sequence, the current position, and an optional I/O error the
source raises once the bytes are exhausted (`err = none` is a well-behaved
source that just reports end-of-file). -/
structure ByteStream : Type where
  file : List Nat
  pos : Nat
  err : Option IOErrorKind
deriving DecidableEq, Repr

/-- Big-endian u32 from 4 bytes. -/
def beU32 (b0 b1 b2 b3 : Nat) : Nat :=
  ((b0 % 256) * 16777216 + (b1 % 256) * 65536 + (b2 % 256) * 256 + b3 % 256)

/-- `read_u32::<BigEndian>` via `read_exact`: succeeds when 4 bytes are
available; otherwise surfaces the source's pending error, or
`UnexpectedEof` when the source simply ended. -/
def readU32BE (s : ByteStream) : Except IOErrorKind (Nat × ByteStream) :=
  if s.pos + 4 ≤ s.file.length then
    let bytes := (s.file.drop s.pos).take 4
    Except.ok (beU32 (bytes.getD 0 0) (bytes.getD 1 0) (bytes.getD 2 0) (bytes.getD 3 0),
      { s with pos := s.pos + 4 })
  else
    match s.err with
    | some e => Except.error e
    | none => Except.error IOErrorKind.unexpectedEof

/-- Reading through `reader.by_ref().take(n)` as `parse_message_from_reader`
does: it consumes up to `n` bytes, stopping early without error at clean
end-of-file, but surfacing a pending source error if the source fails before
`n` bytes arrive. -/
def readTake (s : ByteStream) (n : Nat) : Except IOErrorKind (List Nat × ByteStream) :=
  if s.pos + n ≤ s.file.length then
    Except.ok ((s.file.drop s.pos).take n, { s with pos := s.pos + n })
  else
    match s.err with
    | some e => Except.error e
    | none => Except.ok (s.file.drop s.pos, { s with pos := s.file.length })

/-- `fileformat::BlobHeader`: the type tag string and the declared payload
size (the `indexdata` field is never read by the crate). -/
structure BlobHeaderMsg : Type where
  field_type : String
  datasize : Nat
deriving DecidableEq, Repr

/-- `fileformat::Blob`: optional raw bytes and optional zlib-compressed
bytes (`has_raw`/`has_zlib_data` are `Option.isSome`). -/
structure FFBlob : Type where
  raw : Option (List Nat)
  zlib_data : Option (List Nat)
deriving DecidableEq, Repr

/-- `blob::Blob`: framed header message + body message + captured byte
offset (`None` when the source is not seekable). -/
structure Blob : Type where
  header : BlobHeaderMsg
  blob : FFBlob
  offset : Option Nat
deriving DecidableEq, Repr

/-- `blob::BlobReader`: the source, the tracked offset in bytes from stream
start, and the `last_blob_ok` halt flag. -/
structure BlobReader : Type where
  stream : ByteStream
  offset : Option Nat
  last_blob_ok : Bool
deriving DecidableEq, Repr

/-- `BlobReader::next` (src/blob.rs lines 190-251).  The two protobuf
parses the crate delegates to are passed in: `ph` parses a `BlobHeader`
message from bytes, `pb` parses a `Blob` message.  Returns the yielded item
(`none` = end of sequence) together with the updated reader. -/
def readerNext (ph : List Nat → Except Unit BlobHeaderMsg)
    (pb : List Nat → Except Unit FFBlob) (r : BlobReader) :
    Option (Except ErrorKind Blob) × BlobReader :=
  if r.last_blob_ok = false then
    (none, r)
  else
    let prev_offset := r.offset
    match readU32BE r.stream with
    | Except.error e =>
      match e with
      | IOErrorKind.unexpectedEof => (none, { r with offset := none })
      | _ =>
        (some (Except.error (ErrorKind.Blob BlobError.InvalidHeaderSize)),
          { r with offset := none, last_blob_ok := false })
    | Except.ok (n, s1) =>
      let header_size := n
      let r1 : BlobReader :=
        { r with stream := s1, offset := r.offset.map (· + 4) }
      if header_size ≥ MAX_BLOB_HEADER_SIZE then
        (some (Except.error (ErrorKind.Blob (BlobError.HeaderTooBig header_size))),
          { r1 with last_blob_ok := false })
      else
        match readTake s1 header_size with
        | Except.error _ =>
          (some (Except.error (ErrorKind.Protobuf ("blob header"))),
            { r1 with offset := none, last_blob_ok := false })
        | Except.ok (hbytes, s2) =>
          match ph hbytes with
          | Except.error _ =>
            (some (Except.error (ErrorKind.Protobuf ("blob header"))),
              { r1 with stream := s2, offset := none, last_blob_ok := false })
          | Except.ok header =>
            match readTake s2 header.datasize with
            | Except.error _ =>
              (some (Except.error (ErrorKind.Protobuf ("blob content"))),
                { r1 with stream := s2, offset := none, last_blob_ok := false })
            | Except.ok (bbytes, s3) =>
              match pb bbytes with
              | Except.error _ =>
                (some (Except.error (ErrorKind.Protobuf ("blob content"))),
                  { r1 with stream := s3, offset := none, last_blob_ok := false })
              | Except.ok blob =>
                (some (Except.ok { header := header, blob := blob, offset := prev_offset }),
                  { r1 with
                    stream := s3
                    offset := r1.offset.map (· + header_size + header.datasize) })

/-- `BlobReader::seek` (src/blob.rs lines 303-314): repositions the stream
to `pos` from the start and records the returned position as the tracked
offset.  A plain in-memory/file source's seek always succeeds and returns
`pos`. -/
def BlobReader.seek (r : BlobReader) (pos : Nat) : BlobReader :=
  { r with stream := { r.stream with pos := pos }, offset := some pos }

/-! ## Blob decoding (src/blob.rs, decode_blob and Blob::decode) -/

/-- `decode_blob` (src/blob.rs lines 377-396, default feature set).
`parse` is the generic protobuf parse of the target message type `T`;
`inflate` is the zlib/deflate filter; the `take` cap on the inflating
reader becomes a `List.take` of the decompressed output. -/
def decode_blob {T : Type} (parse : List Nat → Except Unit T)
    (inflate : List Nat → List Nat) (blob : FFBlob) : Except ErrorKind T :=
  match blob.raw with
  | some bytes =>
    let size := bytes.length
    if size < MAX_BLOB_MESSAGE_SIZE then
      match parse bytes with
      | Except.ok t => Except.ok t
      | Except.error _ => Except.error (ErrorKind.Protobuf ("raw blob data"))
    else
      Except.error (ErrorKind.Blob (BlobError.MessageTooBig size))
  | none =>
    match blob.zlib_data with
    | some z =>
      match parse ((inflate z).take MAX_BLOB_MESSAGE_SIZE) with
      | Except.ok t => Except.ok t
      | Except.error _ => Except.error (ErrorKind.Protobuf ("blob zlib data"))
    | none => Except.error (ErrorKind.Blob BlobError.Empty)

/-- `block::HeaderBlock`: the feature-capability string lists. -/
structure HeaderBlock : Type where
  required_features : List String
  optional_features : List String
deriving DecidableEq, Repr

/-- `BlobType` from src/blob.rs. -/
inductive BlobType : Type
  | OsmHeader : BlobType
  | OsmData : BlobType
  | Unknown (s : String) : BlobType
deriving DecidableEq, Repr

/-- `BlobDecode` from src/blob.rs. -/
inductive BlobDecode : Type
  | OsmHeader (h : HeaderBlock) : BlobDecode
  | OsmData (p : PrimitiveBlock) : BlobDecode
  | Unknown (s : String) : BlobDecode
deriving DecidableEq, Repr

/-- `Blob::get_type` (src/blob.rs lines 97-103): dispatch on the header's
type tag string. -/
def Blob.get_type (b : Blob) : BlobType :=
  match b.header.field_type with
  | "OSMHeader" => BlobType.OsmHeader
  | "OSMData" => BlobType.OsmData
  | x => BlobType.Unknown x

/-- `Blob::decode` (src/blob.rs lines 82-94).  `parseHeader` and
`parsePrim` are the protobuf parses of `osmformat::HeaderBlock` and
`osmformat::PrimitiveBlock` (already wrapped into the crate's block types,
as `to_headerblock`/`to_primitiveblock` do with `HeaderBlock::new` /
`PrimitiveBlock::new`). -/
def Blob.decode (parseHeader : List Nat → Except Unit HeaderBlock)
    (parsePrim : List Nat → Except Unit PrimitiveBlock)
    (inflate : List Nat → List Nat) (b : Blob) : Except ErrorKind BlobDecode :=
  match b.get_type with
  | BlobType.OsmHeader =>
    match decode_blob parseHeader inflate b.blob with
    | Except.ok block => Except.ok (BlobDecode.OsmHeader block)
    | Except.error e => Except.error e
  | BlobType.OsmData =>
    match decode_blob parsePrim inflate b.blob with
    | Except.ok block => Except.ok (BlobDecode.OsmData block)
    | Except.error e => Except.error e
  | BlobType.Unknown x => Except.ok (BlobDecode.Unknown x)

/-! ## Block / group iteration (src/block.rs) -/

/-- `Element` from src/elements.rs: the tagged union over the four element
shapes. -/
inductive Element : Type
  | Node (n : OsmNode) : Element
  | DenseNode (d : DenseNode) : Element
  | Way (w : OsmWay) : Element
  | Relation (r : OsmRelation) : Element
deriving DecidableEq, Repr

/-- `ElementsIterState` from src/block.rs. -/
inductive ElementsIterState : Type
  | Group : ElementsIterState
  | DenseNode : ElementsIterState
  | Node : ElementsIterState
  | Way : ElementsIterState
  | Relation : ElementsIterState
deriving DecidableEq, Repr

/-- `BlockElementsIter` from src/block.rs: the current state, the remaining
groups, and the four remaining sub-sequences of the current group (each
modelled as the list the Rust iterator has yet to yield). -/
structure BlockElementsIter : Type where
  state : ElementsIterState
  groups : List PrimitiveGroup
  dense_nodes : List DenseNode
  nodes : List OsmNode
  ways : List OsmWay
  relations : List OsmRelation
deriving DecidableEq, Repr

/-- `BlockElementsIter::new` (src/block.rs lines 141-151): starts in state
`Group` with empty sub-sequences. -/
def BlockElementsIter.new (block : PrimitiveBlock) : BlockElementsIter :=
  { state := ElementsIterState.Group
    groups := block.primitivegroup
    dense_nodes := []
    nodes := []
    ways := []
    relations := [] }

/-- `BlockElementsIter::step` (src/block.rs lines 155-197).  Returns
`(some none, _)` when iteration is over, `(some (some e), _)` when an
element is produced, and `(none, _)` when only the state advanced. -/
def step (it : BlockElementsIter) : Option (Option Element) × BlockElementsIter :=
  match it.state with
  | ElementsIterState.Group =>
    match it.groups with
    | group :: gs =>
      (none,
        { it with
          state := ElementsIterState.DenseNode
          groups := gs
          dense_nodes := group.dense
          nodes := group.nodes
          ways := group.ways
          relations := group.relations })
    | [] => (some none, it)
  | ElementsIterState.DenseNode =>
    match it.dense_nodes with
    | d :: ds => (some (some (Element.DenseNode d)), { it with dense_nodes := ds })
    | [] => (none, { it with state := ElementsIterState.Node })
  | ElementsIterState.Node =>
    match it.nodes with
    | n :: ns => (some (some (Element.Node n)), { it with nodes := ns })
    | [] => (none, { it with state := ElementsIterState.Way })
  | ElementsIterState.Way =>
    match it.ways with
    | w :: ws => (some (some (Element.Way w)), { it with ways := ws })
    | [] => (none, { it with state := ElementsIterState.Relation })
  | ElementsIterState.Relation =>
    match it.relations with
    | r :: rs => (some (some (Element.Relation r)), { it with relations := rs })
    | [] => (none, { it with state := ElementsIterState.Group })

/-- Rank of a state in the Group → DenseNode → Node → Way → Relation →
Group cycle, used for termination of the driving loop. -/
def stateRank : ElementsIterState → Nat
  | ElementsIterState.Group => 0
  | ElementsIterState.DenseNode => 4
  | ElementsIterState.Node => 3
  | ElementsIterState.Way => 2
  | ElementsIterState.Relation => 1

/-- Total number of elements stored in a group. -/
def groupSize (g : PrimitiveGroup) : Nat :=
  g.dense.length + g.nodes.length + g.ways.length + g.relations.length

/-- Termination measure for the iterator loop. -/
def iterMeasure (it : BlockElementsIter) : Nat :=
  5 * (it.groups.map (fun g => groupSize g + 1)).sum
    + 5 * (it.dense_nodes.length + it.nodes.length + it.ways.length + it.relations.length)
    + stateRank it.state

theorem step_loop_decreases (it it2 : BlockElementsIter)
    (h : step it = (none, it2)) : iterMeasure it2 < iterMeasure it := by
  obtain ⟨st, gs, ds, ns, ws, rs⟩ := it
  cases st <;> simp only [step] at h
  case Group =>
    cases gs with
    | nil => simp at h
    | cons g gs =>
      simp only [Prod.mk.injEq, true_and] at h
      subst h
      simp [iterMeasure, stateRank, groupSize]
      omega
  case DenseNode =>
    cases ds with
    | nil =>
      simp only [Prod.mk.injEq, true_and] at h
      subst h
      simp [iterMeasure, stateRank]
    | cons d ds => simp at h
  case Node =>
    cases ns with
    | nil =>
      simp only [Prod.mk.injEq, true_and] at h
      subst h
      simp [iterMeasure, stateRank]
    | cons n ns => simp at h
  case Way =>
    cases ws with
    | nil =>
      simp only [Prod.mk.injEq, true_and] at h
      subst h
      simp [iterMeasure, stateRank]
    | cons w ws => simp at h
  case Relation =>
    cases rs with
    | nil =>
      simp only [Prod.mk.injEq, true_and] at h
      subst h
      simp [iterMeasure, stateRank]
    | cons r rs => simp at h

theorem step_yield_decreases (it it2 : BlockElementsIter) (e : Element)
    (h : step it = (some (some e), it2)) : iterMeasure it2 < iterMeasure it := by
  obtain ⟨st, gs, ds, ns, ws, rs⟩ := it
  cases st <;> simp only [step] at h
  case Group =>
    cases gs <;> simp at h
  case DenseNode =>
    cases ds with
    | nil => simp at h
    | cons d ds =>
      simp only [Prod.mk.injEq] at h
      obtain ⟨-, h2⟩ := h
      subst h2
      simp [iterMeasure]
  case Node =>
    cases ns with
    | nil => simp at h
    | cons n ns =>
      simp only [Prod.mk.injEq] at h
      obtain ⟨-, h2⟩ := h
      subst h2
      simp [iterMeasure]
  case Way =>
    cases ws with
    | nil => simp at h
    | cons w ws =>
      simp only [Prod.mk.injEq] at h
      obtain ⟨-, h2⟩ := h
      subst h2
      simp [iterMeasure]
  case Relation =>
    cases rs with
    | nil => simp at h
    | cons r rs =>
      simp only [Prod.mk.injEq] at h
      obtain ⟨-, h2⟩ := h
      subst h2
      simp [iterMeasure]

/-- The loop in `BlockElementsIter::next` (src/block.rs lines 204-210),
iterated to exhaustion: the full element sequence the iterator yields. -/
def runIter (it : BlockElementsIter) : List Element :=
  match h : step it with
  | (some none, _) => []
  | (some (some e), it2) => e :: runIter it2
  | (none, it2) => runIter it2
termination_by iterMeasure it
decreasing_by
  · exact step_yield_decreases _ _ _ h
  · exact step_loop_decreases _ _ h

/-- `PrimitiveBlock::elements` (src/block.rs line 44), as the full yielded
sequence. -/
def elementsList (block : PrimitiveBlock) : List Element :=
  runIter (BlockElementsIter.new block)

/-- `PrimitiveBlock::for_each_element` (src/block.rs lines 54-72).  The
caller-supplied visitor closure is modelled as a fold function `f` over an
accumulator, applied in exactly the source's nested loop order: per group,
ordinary nodes, then dense nodes, then ways, then relations. -/
def for_each_element {α : Type} (block : PrimitiveBlock) (f : α → Element → α)
    (a : α) : α :=
  block.primitivegroup.foldl (fun acc group =>
    let acc1 := group.nodes.foldl (fun x n => f x (Element.Node n)) acc
    let acc2 := group.dense.foldl (fun x d => f x (Element.DenseNode d)) acc1
    let acc3 := group.ways.foldl (fun x w => f x (Element.Way w)) acc2
    group.relations.foldl (fun x r => f x (Element.Relation r)) acc3) a

/-- The visit order of `for_each_element`, as a list: per group, ordinary
nodes first, then dense nodes, then ways, then relations. -/
def groupForEachOrder (g : PrimitiveGroup) : List Element :=
  g.nodes.map Element.Node ++ g.dense.map Element.DenseNode
    ++ g.ways.map Element.Way ++ g.relations.map Element.Relation

/-- The emit order of `elements()`, per group: dense nodes first, then
ordinary nodes, then ways, then relations. -/
def groupElementsOrder (g : PrimitiveGroup) : List Element :=
  g.dense.map Element.DenseNode ++ g.nodes.map Element.Node
    ++ g.ways.map Element.Way ++ g.relations.map Element.Relation

/-- The full `for_each_element` visit order of a block. -/
def forEachOrder (block : PrimitiveBlock) : List Element :=
  (block.primitivegroup.map groupForEachOrder).flatten

theorem runIter_group_nil (ds : List DenseNode) (ns : List OsmNode)
    (ws : List OsmWay) (rs : List OsmRelation) :
    runIter ⟨ElementsIterState.Group, [], ds, ns, ws, rs⟩ = [] := by
  rw [runIter.eq_def]
  simp [step]

theorem runIter_relation (gs : List PrimitiveGroup) (ds : List DenseNode)
    (ns : List OsmNode) (ws : List OsmWay) (rs : List OsmRelation) :
    runIter ⟨ElementsIterState.Relation, gs, ds, ns, ws, rs⟩ =
      rs.map Element.Relation ++ runIter ⟨ElementsIterState.Group, gs, ds, ns, ws, []⟩ := by
  induction rs with
  | nil =>
    rw [runIter.eq_def]
    simp [step]
  | cons r rs ih =>
    rw [runIter.eq_def]
    simpa [step] using ih

theorem runIter_way (gs : List PrimitiveGroup) (ds : List DenseNode)
    (ns : List OsmNode) (ws : List OsmWay) (rs : List OsmRelation) :
    runIter ⟨ElementsIterState.Way, gs, ds, ns, ws, rs⟩ =
      ws.map Element.Way ++ runIter ⟨ElementsIterState.Relation, gs, ds, ns, [], rs⟩ := by
  induction ws with
  | nil =>
    rw [runIter.eq_def]
    simp [step]
  | cons w ws ih =>
    rw [runIter.eq_def]
    simpa [step] using ih

theorem runIter_node (gs : List PrimitiveGroup) (ds : List DenseNode)
    (ns : List OsmNode) (ws : List OsmWay) (rs : List OsmRelation) :
    runIter ⟨ElementsIterState.Node, gs, ds, ns, ws, rs⟩ =
      ns.map Element.Node ++ runIter ⟨ElementsIterState.Way, gs, ds, [], ws, rs⟩ := by
  induction ns with
  | nil =>
    rw [runIter.eq_def]
    simp [step]
  | cons n ns ih =>
    rw [runIter.eq_def]
    simpa [step] using ih

theorem runIter_dense (gs : List PrimitiveGroup) (ds : List DenseNode)
    (ns : List OsmNode) (ws : List OsmWay) (rs : List OsmRelation) :
    runIter ⟨ElementsIterState.DenseNode, gs, ds, ns, ws, rs⟩ =
      ds.map Element.DenseNode ++ runIter ⟨ElementsIterState.Node, gs, [], ns, ws, rs⟩ := by
  induction ds with
  | nil =>
    rw [runIter.eq_def]
    simp [step]
  | cons d ds ih =>
    rw [runIter.eq_def]
    simpa [step] using ih

theorem runIter_group_cons (g : PrimitiveGroup) (gs : List PrimitiveGroup)
    (ds : List DenseNode) (ns : List OsmNode) (ws : List OsmWay)
    (rs : List OsmRelation) :
    runIter ⟨ElementsIterState.Group, g :: gs, ds, ns, ws, rs⟩ =
      runIter ⟨ElementsIterState.DenseNode, gs, g.dense, g.nodes, g.ways, g.relations⟩ := by
  rw [runIter.eq_def]
  simp [step]

/-- The state machine of `elements()` flattens to: groups in stored order,
within each group dense nodes, then nodes, then ways, then relations. -/
theorem runIter_flattens (gs : List PrimitiveGroup) :
    runIter ⟨ElementsIterState.Group, gs, [], [], [], []⟩ =
      (gs.map groupElementsOrder).flatten := by
  induction gs with
  | nil => simp [runIter_group_nil]
  | cons g gs ih =>
    rw [runIter_group_cons, runIter_dense, runIter_node, runIter_way, runIter_relation, ih]
    simp [groupElementsOrder]

theorem elementsList_eq_flat (block : PrimitiveBlock) :
    elementsList block = (block.primitivegroup.map groupElementsOrder).flatten := by
  unfold elementsList BlockElementsIter.new
  exact runIter_flattens block.primitivegroup

theorem for_each_group_foldl {α : Type} (f : α → Element → α) (g : PrimitiveGroup)
    (a : α) :
    (g.relations.foldl (fun x r => f x (Element.Relation r))
      (g.ways.foldl (fun x w => f x (Element.Way w))
        (g.dense.foldl (fun x d => f x (Element.DenseNode d))
          (g.nodes.foldl (fun x n => f x (Element.Node n)) a)))) =
      (groupForEachOrder g).foldl f a := by
  simp [groupForEachOrder, List.foldl_append, List.foldl_map]

theorem for_each_element_eq_foldl {α : Type} (block : PrimitiveBlock)
    (f : α → Element → α) (a : α) :
    for_each_element block f a = (forEachOrder block).foldl f a := by
  unfold for_each_element forEachOrder
  generalize block.primitivegroup = gs
  induction gs generalizing a with
  | nil => simp
  | cons g gs ih =>
    simp only [List.foldl_cons, List.map_cons, List.flatten_cons, List.foldl_append]
    rw [← for_each_group_foldl, ih]

theorem groupOrders_perm (g : PrimitiveGroup) :
    (groupForEachOrder g).Perm (groupElementsOrder g) := by
  unfold groupForEachOrder groupElementsOrder
  have hp : (g.nodes.map Element.Node ++ g.dense.map Element.DenseNode).Perm
      (g.dense.map Element.DenseNode ++ g.nodes.map Element.Node) :=
    List.perm_append_comm
  have h := hp.append_right (g.ways.map Element.Way ++ g.relations.map Element.Relation)
  simpa [List.append_assoc] using h

theorem forEachOrder_perm (block : PrimitiveBlock) :
    (forEachOrder block).Perm (elementsList block) := by
  rw [elementsList_eq_flat]
  unfold forEachOrder
  generalize block.primitivegroup = gs
  induction gs with
  | nil => simp
  | cons g gs ih =>
    simp only [List.map_cons, List.flatten_cons]
    exact (groupOrders_perm g).append ih

theorem forEachOrder_eq_of_unmixed (block : PrimitiveBlock)
    (h : ∀ g ∈ block.primitivegroup, g.dense = [] ∨ g.nodes = []) :
    forEachOrder block = elementsList block := by
  rw [elementsList_eq_flat]
  unfold forEachOrder
  congr 1
  apply List.map_congr_left
  intro g hg
  rcases h g hg with hd | hn
  · simp [groupForEachOrder, groupElementsOrder, hd]
  · simp [groupForEachOrder, groupElementsOrder, hn]

/-! ## Lemmas on delta decoding -/

theorem wayRefsFrom_length (c : Int) (ds : List Int) :
    (wayRefsFrom c ds).length = ds.length := by
  induction ds generalizing c with
  | nil => rfl
  | cons d ds ih => simp [wayRefsFrom, ih]

theorem wayRefsFrom_get (c : Int) (ds : List Int) (i : Nat) (h : i < ds.length) :
    (wayRefsFrom c ds).get? i = some (c + (ds.take (i + 1)).sum) := by
  induction ds generalizing c i with
  | nil => simp at h
  | cons d ds ih =>
    cases i with
    | zero => simp [wayRefsFrom]
    | succ i =>
      have hi : i < ds.length := by simpa using Nat.lt_of_succ_lt_succ h
      have step := ih (c + d) i hi
      simp only [wayRefsFrom, List.get?_cons_succ, List.take_succ_cons, List.sum_cons]
      rw [step]
      congr 1
      ring

theorem relMembersFrom_length (c : Int) (rs ds : List Int)
    (ts : List RelMemberType) :
    (relMembersFrom c rs ds ts).length =
      min (min rs.length ds.length) ts.length := by
  induction rs generalizing c ds ts with
  | nil => simp [relMembersFrom]
  | cons r rs ih =>
    cases ds with
    | nil => simp [relMembersFrom]
    | cons d ds =>
      cases ts with
      | nil => simp [relMembersFrom]
      | cons t ts =>
        simp only [relMembersFrom, List.length_cons, ih]
        omega

theorem relMembersFrom_map_id (c : Int) (rs ds : List Int)
    (ts : List RelMemberType) (h1 : rs.length = ds.length)
    (h2 : ts.length = ds.length) :
    (relMembersFrom c rs ds ts).map RelMember.member_id = wayRefsFrom c ds := by
  induction ds generalizing c rs ts with
  | nil =>
    cases rs with
    | nil => cases ts <;> simp [relMembersFrom, wayRefsFrom]
    | cons r rs => simp at h1
  | cons d ds ih =>
    cases rs with
    | nil => simp at h1
    | cons r rs =>
      cases ts with
      | nil => simp at h2
      | cons t ts =>
        simp only [relMembersFrom, wayRefsFrom, List.map_cons, List.cons.injEq]
        exact ⟨trivial, ih (c + d) rs ts (by simpa using h1) (by simpa using h2)⟩

/-- C7: `Way::refs` and `Relation::members` decode the stored signed delta
sequences by a running sum seeded at 0, accumulated strictly left-to-right,
one output per stored delta: the i-th output is the sum of the first i+1
deltas.  Way-ref deltas `[100, -50, 5]` yield `[100, 50, 55]`; member-id
deltas `[10, 5, -3]` with matching-length role and type arrays yield member
ids `[10, 15, 12]`. -/
theorem delta_running_sum_decode :
    (∀ w : OsmWay, (wayRefs w).length = w.refs.length ∧
      ∀ i, i < w.refs.length →
        (wayRefs w).get? i = some ((w.refs.take (i + 1)).sum)) ∧
    wayRefsFrom 0 [100, -50, 5] = [100, 50, 55] ∧
    (∀ rel : OsmRelation, rel.roles_sid.length = rel.memids.length →
      rel.types.length = rel.memids.length →
      (relMembers rel).map RelMember.member_id = wayRefsFrom 0 rel.memids) ∧
    (relMembersFrom 0 [0, 1, 2] [10, 5, -3]
        [RelMemberType.node, RelMemberType.way, RelMemberType.relation]).map
      RelMember.member_id = [10, 15, 12] := by
  refine ⟨fun w => ⟨wayRefsFrom_length 0 w.refs, fun i hi => ?_⟩, by decide,
    fun rel h1 h2 => relMembersFrom_map_id 0 rel.roles_sid rel.memids rel.types h1 h2,
    by decide⟩
  have := wayRefsFrom_get 0 w.refs i hi
  simpa using this

/-- Witness for C7 at the spec's concrete inputs. -/
theorem delta_running_sum_decode_witness :
    (wayRefs ⟨7, [], [], [100, -50, 5]⟩).get? 2 = some 55 ∧
    (relMembers ⟨9, [], [], [0, 1, 2], [10, 5, -3],
        [RelMemberType.node, RelMemberType.way, RelMemberType.relation]⟩).map
      RelMember.member_id = [10, 15, 12] := by
  obtain ⟨h1, -, h3, -⟩ := delta_running_sum_decode
  constructor
  · have := (h1 ⟨7, [], [], [100, -50, 5]⟩).2 2 (by decide)
    simpa using this
  · have := h3 ⟨9, [], [], [0, 1, 2], [10, 5, -3],
      [RelMemberType.node, RelMemberType.way, RelMemberType.relation]⟩
      (by decide) (by decide)
    simpa using this

/-- C8: when the three parallel member arrays have unequal lengths,
`Relation::members` yields exactly as many members as the shortest array
and then stops; it is total, so no error is produced.  With 3 role entries,
2 id deltas and 3 types it yields exactly 2 members. -/
theorem relation_member_truncation :
    (∀ rel : OsmRelation, (relMembers rel).length =
      min (min rel.roles_sid.length rel.memids.length) rel.types.length) ∧
    (relMembers ⟨1, [], [], [0, 1, 2], [10, 5],
      [RelMemberType.node, RelMemberType.way, RelMemberType.node]⟩).length = 2 :=
  ⟨fun rel => relMembersFrom_length 0 rel.roles_sid rel.memids rel.types,
    by decide⟩

/-- C9: stringtable resolution is total (the Lean function is total by
construction, so it never panics): index at or past the table length gives
`StringtableIndexOutOfBounds` with that index; in-bounds bytes that are not
valid UTF-8 give `StringtableUtf8` with the UTF-8 error position and the
index; otherwise it succeeds with the string.  The result is a pure function
of the block and the index alone, so a failure at one index leaves the
resolution of every other index unaffected. -/
theorem stringtable_resolution_total :
    (∀ (block : PrimitiveBlock) (index : Nat), block.stringtable.length ≤ index →
      str_from_stringtable block index =
        Except.error (ErrorKind.StringtableIndexOutOfBounds index)) ∧
    (∀ (block : PrimitiveBlock) (index : Nat) (vec : List Nat),
      block.stringtable.get? index = some vec →
      (utf8Check vec = none → str_from_stringtable block index = Except.ok vec) ∧
      (∀ p, utf8Check vec = some p →
        str_from_stringtable block index =
          Except.error (ErrorKind.StringtableUtf8 p index))) := by
  constructor
  · intro block index h
    unfold str_from_stringtable
    rw [List.get?_eq_none.mpr h]
  · intro block index vec hget
    unfold str_from_stringtable
    rw [hget]
    exact ⟨fun hv => by simp [hv], fun p hv => by simp [hv]⟩

/-- Witness for C9: a two-entry table, resolved out of bounds, at a valid
ASCII entry, and at a non-UTF-8 entry. -/
theorem stringtable_resolution_total_witness :
    str_from_stringtable ⟨[[65], [255]], []⟩ 2 =
      Except.error (ErrorKind.StringtableIndexOutOfBounds 2) ∧
    str_from_stringtable ⟨[[65], [255]], []⟩ 0 = Except.ok [65] ∧
    str_from_stringtable ⟨[[65], [255]], []⟩ 1 =
      Except.error (ErrorKind.StringtableUtf8 0 1) := by
  obtain ⟨h1, h2⟩ := stringtable_resolution_total
  refine ⟨h1 ⟨[[65], [255]], []⟩ 2 (by decide), ?_, ?_⟩
  · exact (h2 ⟨[[65], [255]], []⟩ 0 [65] (by decide)).1 (by decide)
  · exact (h2 ⟨[[65], [255]], []⟩ 1 [255] (by decide)).2 0 (by decide)

/-- C10: `TagIter::size_hint` (and the `ExactSizeIterator` length, its
first component) is the length of the key-index array alone, independent of
the value-index array and of string resolvability; consequently there are
elements (a value array shorter than the key array, and an equal-length
pair whose first tag fails stringtable resolution) for which the reported
length strictly exceeds the number of pairs actually yielded. -/
theorem tag_size_hint_overcounts :
    (∀ keys vals vals2 : List Nat,
      tagIterSizeHint keys vals = (keys.length, some keys.length) ∧
      tagIterSizeHint keys vals = tagIterSizeHint keys vals2) ∧
    (∃ (block : PrimitiveBlock) (keys vals : List Nat),
      vals.length < keys.length ∧
      (tagsFrom block keys vals).length < (tagIterSizeHint keys vals).1) ∧
    (∃ (block : PrimitiveBlock) (keys vals : List Nat),
      vals.length = keys.length ∧
      (tagsFrom block keys vals).length < (tagIterSizeHint keys vals).1) := by
  refine ⟨fun keys vals vals2 => ⟨rfl, rfl⟩, ?_, ?_⟩
  · exact ⟨⟨[[65]], []⟩, [0, 0], [0], by decide, by decide⟩
  · exact ⟨⟨[], []⟩, [0], [0], rfl, by decide⟩

/-- C5: `decode_blob` on a body with a present raw-bytes field of length ≥
32 MiB fails with `MessageTooBig` carrying that size; with a raw field
shorter than 32 MiB it decodes the bytes directly with the target wire
message parser; with neither the raw nor the zlib field present it fails
with `Empty`. -/
theorem decode_blob_raw_and_empty :
    ∀ {T : Type} (parse : List Nat → Except Unit T)
      (inflate : List Nat → List Nat) (blob : FFBlob) (bytes : List Nat),
      (blob.raw = some bytes → MAX_BLOB_MESSAGE_SIZE ≤ bytes.length →
        decode_blob parse inflate blob =
          Except.error (ErrorKind.Blob (BlobError.MessageTooBig bytes.length))) ∧
      (blob.raw = some bytes → bytes.length < MAX_BLOB_MESSAGE_SIZE →
        decode_blob parse inflate blob =
          match parse bytes with
          | Except.ok t => Except.ok t
          | Except.error _ => Except.error (ErrorKind.Protobuf ("raw blob data"))) ∧
      (blob.raw = none → blob.zlib_data = none →
        decode_blob parse inflate blob =
          Except.error (ErrorKind.Blob BlobError.Empty)) := by
  intro T parse inflate blob bytes
  refine ⟨fun hraw hbig => ?_, fun hraw hsmall => ?_, fun hraw hz => ?_⟩
  · unfold decode_blob
    rw [hraw]
    simp [Nat.not_lt.mpr hbig]
  · unfold decode_blob
    rw [hraw]
    simp [hsmall]
  · unfold decode_blob
    rw [hraw, hz]

/-- Witness for C5: a 32 MiB raw body is rejected with its size, a short
raw body decodes through the parser, and a body with neither field is
`Empty`. -/
theorem decode_blob_raw_and_empty_witness :
    decode_blob (fun l => Except.ok l.length) (fun l => l)
        ⟨some (List.replicate MAX_BLOB_MESSAGE_SIZE 0), none⟩ =
      Except.error (ErrorKind.Blob (BlobError.MessageTooBig MAX_BLOB_MESSAGE_SIZE)) ∧
    decode_blob (fun l => Except.ok l.length) (fun l => l) ⟨some [7, 7], none⟩ =
      Except.ok 2 ∧
    decode_blob (fun l => Except.ok l.length) (fun l => l) ⟨none, none⟩ =
      Except.error (ErrorKind.Blob BlobError.Empty) := by
  obtain ⟨h1, -, -⟩ := decode_blob_raw_and_empty (fun l => Except.ok l.length)
    (fun l => l) ⟨some (List.replicate MAX_BLOB_MESSAGE_SIZE 0), none⟩
    (List.replicate MAX_BLOB_MESSAGE_SIZE 0)
  obtain ⟨-, h2, -⟩ := decode_blob_raw_and_empty (fun l => Except.ok l.length)
    (fun l => l) ⟨some [7, 7], none⟩ [7, 7]
  obtain ⟨-, -, h3⟩ := decode_blob_raw_and_empty (fun l => Except.ok l.length)
    (fun l => l) (⟨none, none⟩ : FFBlob) []
  refine ⟨?_, ?_, h3 rfl rfl⟩
  · have := h1 rfl (by simp)
    simpa using this
  · have := h2 rfl (by norm_num [MAX_BLOB_MESSAGE_SIZE])
    simpa using this

/-- C6: `Blob::decode` dispatches on the header's type tag: `"OSMHeader"`
decodes the body to a `HeaderBlock`, `"OSMData"` decodes it to a
`PrimitiveBlock`, and any other tag returns `Ok (Unknown tag)` for every
body — never an error.  `decode` never touches the `BlobReader` (it is a
function of the blob alone), so an unknown tag cannot halt the stream. -/
theorem blob_decode_dispatch :
    ∀ (parseHeader : List Nat → Except Unit HeaderBlock)
      (parsePrim : List Nat → Except Unit PrimitiveBlock)
      (inflate : List Nat → List Nat) (b : Blob),
      (b.header.field_type = "OSMHeader" →
        b.get_type = BlobType.OsmHeader ∧
        Blob.decode parseHeader parsePrim inflate b =
          match decode_blob parseHeader inflate b.blob with
          | Except.ok block => Except.ok (BlobDecode.OsmHeader block)
          | Except.error e => Except.error e) ∧
      (b.header.field_type = "OSMData" →
        b.get_type = BlobType.OsmData ∧
        Blob.decode parseHeader parsePrim inflate b =
          match decode_blob parsePrim inflate b.blob with
          | Except.ok block => Except.ok (BlobDecode.OsmData block)
          | Except.error e => Except.error e) ∧
      (b.header.field_type ≠ "OSMHeader" → b.header.field_type ≠ "OSMData" →
        b.get_type = BlobType.Unknown b.header.field_type ∧
        Blob.decode parseHeader parsePrim inflate b =
          Except.ok (BlobDecode.Unknown b.header.field_type)) := by
  intro parseHeader parsePrim inflate b
  refine ⟨fun h => ?_, fun h => ?_, fun h1 h2 => ?_⟩
  · have ht : b.get_type = BlobType.OsmHeader := by
      unfold Blob.get_type
      rw [h]
      decide
    exact ⟨ht, by unfold Blob.decode; rw [ht]⟩
  · have ht : b.get_type = BlobType.OsmData := by
      unfold Blob.get_type
      rw [h]
      decide
    exact ⟨ht, by unfold Blob.decode; rw [ht]⟩
  · have ht : b.get_type = BlobType.Unknown b.header.field_type := by
      unfold Blob.get_type
      split
      · exact absurd (by assumption) h1
      · exact absurd (by assumption) h2
      · rfl
    exact ⟨ht, by unfold Blob.decode; rw [ht]⟩

/-- Witness for C6: a `"FooBar"` blob decodes to `Unknown "FooBar"`, and an
`"OSMHeader"` blob decodes its body as a header block. -/
theorem blob_decode_dispatch_witness :
    Blob.decode (fun _ => Except.ok ⟨[], []⟩) (fun _ => Except.ok ⟨[], []⟩)
        (fun l => l) ⟨⟨"FooBar", 0⟩, ⟨some [1], none⟩, none⟩ =
      Except.ok (BlobDecode.Unknown ("FooBar")) ∧
    Blob.decode (fun _ => Except.ok ⟨[], []⟩) (fun _ => Except.ok ⟨[], []⟩)
        (fun l => l) ⟨⟨"OSMHeader", 0⟩, ⟨some [1], none⟩, none⟩ =
      Except.ok (BlobDecode.OsmHeader ⟨[], []⟩) := by
  obtain ⟨-, -, h3⟩ := blob_decode_dispatch (fun _ => Except.ok ⟨[], []⟩)
    (fun _ => Except.ok ⟨[], []⟩) (fun l => l)
    ⟨⟨"FooBar", 0⟩, ⟨some [1], none⟩, none⟩
  obtain ⟨h1, -, -⟩ := blob_decode_dispatch (fun _ => Except.ok ⟨[], []⟩)
    (fun _ => Except.ok ⟨[], []⟩) (fun l => l)
    ⟨⟨"OSMHeader", 0⟩, ⟨some [1], none⟩, none⟩
  constructor
  · exact (h3 (by decide) (by decide)).2
  · have := (h1 rfl).2
    rw [this]
    rfl

/-- A block with one group holding both a dense node and an ordinary node:
`elements()` emits the dense node first, `for_each_element` visits the
ordinary node first. -/
def mixedBlock : PrimitiveBlock :=
  ⟨[], [⟨[⟨1⟩], [⟨2, [], []⟩], [], []⟩]⟩

/-- C2 counterexample: the visitor trace of `for_each_element` differs from
the element sequence of `elements()` on `mixedBlock`, so the two do not
agree in order for every `PrimitiveBlock`. -/
theorem for_each_element_order_differs :
    for_each_element mixedBlock (fun l e => l ++ [e]) [] ≠ elementsList mixedBlock := by
  rw [elementsList_eq_flat]
  decide

/-- C2 (amended): `for_each_element` applies the visitor to exactly the
elements of `elements()`, groups in stored order, but within each group it
visits ordinary nodes first and dense nodes second (then ways, then
relations), while `elements()` emits dense nodes before ordinary nodes.
The visited sequence is always a permutation of `elements()`, and the two
orders coincide exactly on blocks in which no group holds both dense and
ordinary nodes. -/
theorem for_each_element_visits_elements {α : Type} (block : PrimitiveBlock)
    (f : α → Element → α) (a : α) :
    for_each_element block f a = (forEachOrder block).foldl f a ∧
    (forEachOrder block).Perm (elementsList block) ∧
    ((∀ g ∈ block.primitivegroup, g.dense = [] ∨ g.nodes = []) →
      for_each_element block f a = (elementsList block).foldl f a) :=
  ⟨for_each_element_eq_foldl block f a, forEachOrder_perm block,
    fun h => by rw [for_each_element_eq_foldl, forEachOrder_eq_of_unmixed block h]⟩

/-- Witness for C2 on a block without mixed-shape groups: the visitor trace
equals the element sequence. -/
theorem for_each_element_visits_elements_witness :
    for_each_element (⟨[], [⟨[⟨3⟩], [], [], []⟩, ⟨[], [⟨4, [], []⟩], [], []⟩]⟩ :
        PrimitiveBlock) (fun l e => l ++ [e]) [] =
      (elementsList ⟨[], [⟨[⟨3⟩], [], [], []⟩, ⟨[], [⟨4, [], []⟩], [], []⟩]⟩).foldl
        (fun l e => l ++ [e]) [] := by
  obtain ⟨-, -, h3⟩ := for_each_element_visits_elements
    (⟨[], [⟨[⟨3⟩], [], [], []⟩, ⟨[], [⟨4, [], []⟩], [], []⟩]⟩ : PrimitiveBlock)
    (fun l e => l ++ [e]) ([] : List Element)
  exact h3 (by decide)

/-- A trivial `BlobHeader` parse, used to instantiate the reader at
concrete inputs (the blobs in these streams carry empty messages). -/
def phTrivial : List Nat → Except Unit BlobHeaderMsg :=
  fun _ => Except.ok ⟨"", 0⟩

/-- A trivial `Blob` message parse, counterpart of `phTrivial`. -/
def pbTrivial : List Nat → Except Unit FFBlob :=
  fun _ => Except.ok ⟨none, none⟩

/-- C1 evaluated on the code: a stream with only 2 bytes left (a truncated
header length read) makes `read_u32` fail with `UnexpectedEof`, which
`BlobReader::next` treats exactly like a clean end of stream — it returns
no item and does not halt (`last_blob_ok` stays true), instead of yielding
`InvalidHeaderSize` as the claim states (the source marks this with a TODO:
"This also accepts corrupted files in the case of 1-3 available bytes").
A zero-byte end of stream also ends cleanly, and a non-EOF read error does
yield `InvalidHeaderSize` and halts. -/
theorem truncated_header_read_ends_cleanly :
    (readerNext phTrivial pbTrivial ⟨⟨[0, 1], 0, none⟩, some 0, true⟩).1 = none ∧
    (readerNext phTrivial pbTrivial
        ⟨⟨[0, 1], 0, none⟩, some 0, true⟩).2.last_blob_ok = true ∧
    (readerNext phTrivial pbTrivial ⟨⟨[], 0, none⟩, some 0, true⟩).1 = none ∧
    (readerNext phTrivial pbTrivial
        ⟨⟨[0, 1], 0, some IOErrorKind.otherKind⟩, some 0, true⟩).1 =
      some (Except.error (ErrorKind.Blob BlobError.InvalidHeaderSize)) ∧
    (readerNext phTrivial pbTrivial
        ⟨⟨[0, 1], 0, some IOErrorKind.otherKind⟩, some 0, true⟩).2.last_blob_ok =
      false := by
  refine ⟨rfl, rfl, rfl, rfl, rfl⟩

/-- C4: when the 4-byte header length field decodes to a value at or above
64 KiB, the pull yields `HeaderTooBig` carrying that value and clears
`last_blob_ok`; and a reader whose `last_blob_ok` is cleared returns
nothing and is left unchanged, so every subsequent pull also returns
nothing. -/
theorem header_too_big_halts :
    ∀ (ph : List Nat → Except Unit BlobHeaderMsg)
      (pb : List Nat → Except Unit FFBlob) (r : BlobReader) (n : Nat)
      (s1 : ByteStream),
      r.last_blob_ok = true →
      readU32BE r.stream = Except.ok (n, s1) →
      MAX_BLOB_HEADER_SIZE ≤ n →
      (readerNext ph pb r).1 =
        some (Except.error (ErrorKind.Blob (BlobError.HeaderTooBig n))) ∧
      (readerNext ph pb r).2.last_blob_ok = false ∧
      (∀ r2 : BlobReader, r2.last_blob_ok = false →
        readerNext ph pb r2 = (none, r2)) := by
  intro ph pb r n s1 hok hu32 hbig
  have hmain : readerNext ph pb r =
      (some (Except.error (ErrorKind.Blob (BlobError.HeaderTooBig n))),
        { r with
          stream := s1
          offset := r.offset.map (· + 4)
          last_blob_ok := false }) := by
    unfold readerNext
    simp [hok, hu32, hbig]
  refine ⟨by rw [hmain], by rw [hmain], fun r2 h2 => ?_⟩
  unfold readerNext
  simp [h2]

/-- Witness for C4: the header length bytes `[0, 1, 0, 0]` decode to
65536 = 64 KiB, which is rejected and halts the reader. -/
theorem header_too_big_halts_witness :
    (readerNext phTrivial pbTrivial ⟨⟨[0, 1, 0, 0], 0, none⟩, some 0, true⟩).1 =
      some (Except.error (ErrorKind.Blob (BlobError.HeaderTooBig 65536))) ∧
    (readerNext phTrivial pbTrivial
        ⟨⟨[0, 1, 0, 0], 0, none⟩, some 0, true⟩).2.last_blob_ok = false ∧
    readerNext phTrivial pbTrivial ⟨⟨[0, 1, 0, 0], 4, none⟩, none, false⟩ =
      (none, ⟨⟨[0, 1, 0, 0], 4, none⟩, none, false⟩) := by
  obtain ⟨h1, h2, h3⟩ := header_too_big_halts phTrivial pbTrivial
    ⟨⟨[0, 1, 0, 0], 0, none⟩, some 0, true⟩ 65536 ⟨[0, 1, 0, 0], 4, none⟩
    rfl rfl (by decide)
  exact ⟨h1, h2, h3 ⟨⟨[0, 1, 0, 0], 4, none⟩, none, false⟩ rfl⟩

/-- `readU32BE` leaves the backing bytes and the pending-error flag of the
source untouched on success. -/
theorem readU32BE_ok_parts (s : ByteStream) (n : Nat) (s2 : ByteStream)
    (h : readU32BE s = Except.ok (n, s2)) : s2.file = s.file ∧ s2.err = s.err := by
  obtain ⟨f, p, serr⟩ := s
  unfold readU32BE at h
  split at h
  · simp only [Except.ok.injEq, Prod.mk.injEq] at h
    obtain ⟨-, h2⟩ := h
    subst h2
    exact ⟨rfl, rfl⟩
  · cases serr <;> simp at h

/-- `readTake` leaves the backing bytes and the pending-error flag of the
source untouched on success. -/
theorem readTake_ok_parts (s : ByteStream) (n : Nat) (l : List Nat)
    (s2 : ByteStream) (h : readTake s n = Except.ok (l, s2)) :
    s2.file = s.file ∧ s2.err = s.err := by
  obtain ⟨f, p, serr⟩ := s
  unfold readTake at h
  split at h
  · simp only [Except.ok.injEq, Prod.mk.injEq] at h
    obtain ⟨-, h2⟩ := h
    subst h2
    exact ⟨rfl, rfl⟩
  · cases serr with
    | none =>
      simp only [Except.ok.injEq, Prod.mk.injEq] at h
      obtain ⟨-, h2⟩ := h
      subst h2
      exact ⟨rfl, rfl⟩
    | some e => simp at h

/-- A successful `BlobReader::next` does not change the backing bytes or
the pending-error flag of the source, keeps `last_blob_ok` set, and stamps
the blob with the tracked offset the reader had before the read. -/
theorem readerNext_ok_parts (ph : List Nat → Except Unit BlobHeaderMsg)
    (pb : List Nat → Except Unit FFBlob) (r : BlobReader) (b : Blob)
    (r2 : BlobReader) (h : readerNext ph pb r = (some (Except.ok b), r2)) :
    r2.stream.file = r.stream.file ∧ r2.stream.err = r.stream.err ∧
    r2.last_blob_ok = r.last_blob_ok ∧ b.offset = r.offset := by
  unfold readerNext at h
  split at h
  · simp at h
  split at h
  · split at h <;> simp at h
  case _ n s1 hu32 =>
    dsimp only at h
    split at h
    · simp at h
    split at h
    · simp at h
    case _ hbytes s2 htake1 =>
      split at h
      · simp at h
      case _ header hph =>
        split at h
        · simp at h
        case _ bbytes s3 htake2 =>
          split at h
          · simp at h
          case _ blob hpb =>
            simp only [Prod.mk.injEq, Option.some.injEq, Except.ok.injEq] at h
            obtain ⟨hb, hr2⟩ := h
            subst hb
            subst hr2
            obtain ⟨hf1, he1⟩ := readU32BE_ok_parts r.stream n s1 hu32
            obtain ⟨hf2, he2⟩ := readTake_ok_parts s1 n hbytes s2 htake1
            obtain ⟨hf3, he3⟩ := readTake_ok_parts s2 header.datasize bbytes s3 htake2
            refine ⟨?_, ?_, rfl, rfl⟩
            · rw [hf3, hf2, hf1]
            · rw [he3, he2, he1]

/-- C3: for a seekable reader whose tracked offset agrees with the stream
position (as `new_seekable` establishes and every successful read
maintains), a successful pull yields a blob stamped with that offset;
seeking to that offset repositions the stream there and resets the tracked
cursor to it; and pulling again replays the read byte-for-byte, yielding
the identical blob (same header message, same body message, same offset)
and the identical post-read reader state. -/
theorem seek_roundtrip (ph : List Nat → Except Unit BlobHeaderMsg)
    (pb : List Nat → Except Unit FFBlob) (r r2 : BlobReader) (b : Blob)
    (hoff : r.offset = some r.stream.pos) (hok : r.last_blob_ok = true)
    (hread : readerNext ph pb r = (some (Except.ok b), r2)) :
    b.offset = some r.stream.pos ∧
    (r2.seek r.stream.pos).stream.pos = r.stream.pos ∧
    (r2.seek r.stream.pos).offset = some r.stream.pos ∧
    readerNext ph pb (r2.seek r.stream.pos) = (some (Except.ok b), r2) := by
  obtain ⟨hf, he, hl, hb⟩ := readerNext_ok_parts ph pb r b r2 hread
  have hseek : r2.seek r.stream.pos = r := by
    obtain ⟨⟨f, p, serr⟩, roff, rok⟩ := r
    obtain ⟨⟨f2, p2, e2⟩, off2, ok2⟩ := r2
    simp only at hf he hl hoff hok
    subst hf
    subst he
    subst hl
    subst hoff
    subst hok
    rfl
  exact ⟨by rw [hb, hoff], rfl, rfl, by rw [hseek]; exact hread⟩

/-- Witness for C3: a 4-byte stream framing one empty blob at offset 0;
after the read, seeking back to 0 and pulling again reproduces the same
blob and reader state. -/
theorem seek_roundtrip_witness :
    (⟨⟨"", 0⟩, ⟨none, none⟩, some 0⟩ : Blob).offset = some 0 ∧
    readerNext phTrivial pbTrivial
        (BlobReader.seek ⟨⟨[0, 0, 0, 0], 4, none⟩, some 4, true⟩ 0) =
      (some (Except.ok ⟨⟨"", 0⟩, ⟨none, none⟩, some 0⟩),
        ⟨⟨[0, 0, 0, 0], 4, none⟩, some 4, true⟩) := by
  have h := seek_roundtrip phTrivial pbTrivial
    ⟨⟨[0, 0, 0, 0], 0, none⟩, some 0, true⟩
    ⟨⟨[0, 0, 0, 0], 4, none⟩, some 4, true⟩
    ⟨⟨"", 0⟩, ⟨none, none⟩, some 0⟩ rfl rfl rfl
  exact ⟨h.1, h.2.2.2⟩

end Osmpbf
